/-
Verification of the nnet3 minibatch training engine
(src/nnet3/nnet-training.cc) against its specification.

The development shallowly embeds the training code:

* `EF` is an idealized IEEE-754 scalar: real numbers extended with the
  special values `+inf`, `-inf` and `nan`, with the propagation and
  comparison rules of IEEE arithmetic (finite arithmetic is exact).
  The trainer update rule (NnetTrainer::Train, lines 87-106) is embedded
  over `EF` because its guard `param_delta - param_delta != 0.0` and the
  comparison `param_delta > max_param_change` are sensitive to NaN/Inf.
* The output-processing path (NnetTrainer::ProcessOutputs,
  ComputeObjectiveFunction, ComputeRegularizer) and the statistics
  tracker (ObjectiveFunctionInfo) are embedded over plain real numbers,
  with matrices as lists of rows.
-/
import Mathlib

open Classical

/-! ## The idealized IEEE scalar used by the trainer update rule -/

/-- An IEEE-style extended scalar: an exact real number, `+inf`, `-inf`,
or `nan`.  Finite arithmetic is modelled exactly. -/
inductive EF where
  | fin (x : ℝ)
  | pinf
  | ninf
  | nan

/-- IEEE addition on `EF`: `nan` absorbs, opposite infinities give `nan`. -/
noncomputable def EF.add : EF → EF → EF
  | .nan, _ => .nan
  | _, .nan => .nan
  | .fin a, .fin b => .fin (a + b)
  | .fin _, .pinf => .pinf
  | .fin _, .ninf => .ninf
  | .pinf, .fin _ => .pinf
  | .ninf, .fin _ => .ninf
  | .pinf, .pinf => .pinf
  | .ninf, .ninf => .ninf
  | .pinf, .ninf => .nan
  | .ninf, .pinf => .nan

/-- IEEE subtraction on `EF`: `nan` absorbs, `inf - inf = nan`. -/
noncomputable def EF.sub : EF → EF → EF
  | .nan, _ => .nan
  | _, .nan => .nan
  | .fin a, .fin b => .fin (a - b)
  | .fin _, .pinf => .ninf
  | .fin _, .ninf => .pinf
  | .pinf, .fin _ => .pinf
  | .ninf, .fin _ => .ninf
  | .pinf, .pinf => .nan
  | .ninf, .ninf => .nan
  | .pinf, .ninf => .pinf
  | .ninf, .pinf => .ninf

/-- IEEE multiplication on `EF`: `nan` absorbs, `0 * inf = nan`,
signed infinities otherwise. -/
noncomputable def EF.mul : EF → EF → EF
  | .nan, _ => .nan
  | _, .nan => .nan
  | .fin a, .fin b => .fin (a * b)
  | .fin a, .pinf => if 0 < a then .pinf else if a < 0 then .ninf else .nan
  | .fin a, .ninf => if 0 < a then .ninf else if a < 0 then .pinf else .nan
  | .pinf, .fin b => if 0 < b then .pinf else if b < 0 then .ninf else .nan
  | .ninf, .fin b => if 0 < b then .ninf else if b < 0 then .pinf else .nan
  | .pinf, .pinf => .pinf
  | .ninf, .ninf => .pinf
  | .pinf, .ninf => .ninf
  | .ninf, .pinf => .ninf

/-- IEEE division on `EF` (sign of zero is not modelled): `x / 0` is a
signed infinity for `x ≠ 0` and `nan` for `x = 0`; `inf / inf = nan`. -/
noncomputable def EF.div : EF → EF → EF
  | .nan, _ => .nan
  | _, .nan => .nan
  | .fin a, .fin b =>
      if b = 0 then (if 0 < a then .pinf else if a < 0 then .ninf else .nan)
      else .fin (a / b)
  | .fin _, .pinf => .fin 0
  | .fin _, .ninf => .fin 0
  | .pinf, .fin b => if 0 ≤ b then .pinf else .ninf
  | .ninf, .fin b => if 0 ≤ b then .ninf else .pinf
  | .pinf, .pinf => .nan
  | .pinf, .ninf => .nan
  | .ninf, .pinf => .nan
  | .ninf, .ninf => .nan

/-- IEEE square root on `EF`: `nan` for negative or `nan` input,
`+inf` for `+inf`. -/
noncomputable def EF.sqrt : EF → EF
  | .nan => .nan
  | .pinf => .pinf
  | .ninf => .nan
  | .fin a => if a < 0 then .nan else .fin (Real.sqrt a)

/-- IEEE `>` comparison on `EF`: any comparison involving `nan` is false. -/
noncomputable def EF.gt : EF → EF → Bool
  | .nan, _ => false
  | _, .nan => false
  | .fin a, .fin b => if b < a then true else false
  | .fin _, .pinf => false
  | .fin _, .ninf => true
  | .pinf, .fin _ => true
  | .pinf, .pinf => false
  | .pinf, .ninf => true
  | .ninf, _ => false

/-- IEEE `==` comparison on `EF`: `nan` compares unequal to everything. -/
noncomputable def EF.beq : EF → EF → Bool
  | .fin a, .fin b => if a = b then true else false
  | .pinf, .pinf => true
  | .ninf, .ninf => true
  | _, _ => false

/-! ## The trainer update rule (NnetTrainer, nnet-training.cc lines 26-107)

Model parameters are flattened to a list of `EF` scalars.  `DotProduct`,
`AddNnet` (dest += scale * src), `ScaleNnet` and `SetZero` become the
list operations below. -/

/-- DotProduct(a, b): sum of elementwise products, accumulated left to
right starting from zero, in IEEE arithmetic. -/
noncomputable def dotEF (a b : List EF) : EF :=
  (List.zipWith EF.mul a b).foldl EF.add (EF.fin 0)

/-- AddNnet(src, scale, dest): `dest + scale * src`, elementwise. -/
noncomputable def addScaledEF (scale : EF) (dest src : List EF) : List EF :=
  List.zipWith (fun a b => EF.add a (EF.mul scale b)) dest src

/-- ScaleNnet(scale, nnet): multiply every parameter by `scale`. -/
noncomputable def scaleEF (scale : EF) (v : List EF) : List EF :=
  v.map (fun x => EF.mul scale x)

/-- The quantity `param_delta = sqrt(DotProduct(delta, delta)) * (1 - momentum)`
computed at nnet-training.cc lines 90-91. -/
noncomputable def paramDeltaE (momentum : EF) (delta : List EF) : EF :=
  EF.mul (EF.sqrt (dotEF delta delta)) (EF.sub (EF.fin 1) momentum)

/-- The update rule applied when a delta model exists
(nnet-training.cc lines 87-106): returns the new model and the new
delta model.  `scale = 1 - momentum`; if `max_param_change != 0` and
`param_delta > max_param_change` then either the delta is zeroed (when
`param_delta - param_delta != 0`, i.e. `param_delta` is not finite) or
`scale` is multiplied by `max_param_change / param_delta`; finally
`nnet += scale * delta` and `delta *= momentum`. -/
noncomputable def updateRule (momentum max_param_change : EF)
    (nnet delta : List EF) : List EF × List EF :=
  let scale := EF.sub (EF.fin 1) momentum
  let sd : EF × List EF :=
    if EF.beq max_param_change (EF.fin 0) then (scale, delta)
    else
      let param_delta := paramDeltaE momentum delta
      if EF.gt param_delta max_param_change then
        if !(EF.beq (EF.sub param_delta param_delta) (EF.fin 0)) then
          (scale, delta.map (fun _ => EF.fin 0))
        else
          (EF.mul scale (EF.div max_param_change param_delta), delta)
      else (scale, delta)
  (addScaledEF sd.1 nnet sd.2, scaleEF momentum sd.2)

/-- The delta model allocated at construction (nnet-training.cc lines
34-43): absent when `momentum == 0.0 && max_param_change == 0.0`,
otherwise a zero-initialized copy of the model. -/
noncomputable def mkDeltaNnet (momentum max_param_change : EF)
    (nnet : List EF) : Option (List EF) :=
  if EF.beq momentum (EF.fin 0) && EF.beq max_param_change (EF.fin 0) then none
  else some (nnet.map (fun _ => EF.fin 0))

/-- One call to Train (nnet-training.cc lines 68-107), abstracted over
the external compiler/executor: `grad` is the parameter gradient that
the backward pass writes into the update target, which is the model
itself when no delta model exists (line 79) and the delta model
otherwise.  With a delta model the gradient accumulates into it and the
update rule runs; without one the model has received the gradient
directly and nothing further happens. -/
noncomputable def trainStep (momentum max_param_change : EF)
    (nnet : List EF) (delta : Option (List EF)) (grad : List EF) :
    List EF × Option (List EF) :=
  match delta with
  | none => (List.zipWith EF.add nnet grad, none)
  | some d =>
      let d := List.zipWith EF.add d grad
      let r := updateRule momentum max_param_change nnet d
      (r.1, some r.2)

/-! ## Matrices and supervision encodings

`BaseFloat` is idealized as `ℝ`.  A matrix is a list of rows.  A sparse
matrix stores, per row, a list of `(column, value)` pairs together with
its column count; a compressed matrix is modelled by the dense matrix
its decompression (`GeneralMatrix::GetMatrix`) yields. -/

/-- A dense matrix: a list of rows of reals. -/
abbrev Mat := List (List ℝ)

/-- Number of rows of a dense matrix. -/
def matNumRows (m : Mat) : ℕ := m.length

/-- Number of columns of a dense matrix (the length of its first row). -/
def matNumCols (m : Mat) : ℕ := m.headI.length

/-- Sum of all entries of a dense matrix. -/
noncomputable def matSum (m : Mat) : ℝ := (m.map List.sum).sum

/-- `TraceMatMat(a, b, kTrans)`: the sum of the elementwise products of
two same-shaped dense matrices. -/
noncomputable def traceMatMatTrans (a b : Mat) : ℝ :=
  (List.zipWith (fun ra rb => (List.zipWith (fun x y => x * y) ra rb).sum) a b).sum

/-- Scale every entry of a dense matrix. -/
noncomputable def matScale (c : ℝ) (m : Mat) : Mat := m.map (fun r => r.map (fun x => c * x))

/-- A matrix of ones with the shape of `m` (`CuMatrix::Set(1.0)`). -/
noncomputable def matOnes (m : Mat) : Mat := m.map (fun r => r.map (fun _ => (1 : ℝ)))

/-- Elementwise difference of two same-shaped matrices. -/
noncomputable def matSub (a b : Mat) : Mat :=
  List.zipWith (fun ra rb => List.zipWith (fun x y => x - y) ra rb) a b

/-- Elementwise quotient of two same-shaped matrices (`DivElements`). -/
noncomputable def matDivElems (a b : Mat) : Mat :=
  List.zipWith (fun ra rb => List.zipWith (fun x y => x / y) ra rb) a b

/-- Elementwise natural logarithm (`ApplyLog`). -/
noncomputable def matLog (m : Mat) : Mat := m.map (fun r => r.map Real.log)

/-- The matrix `1 - m`, elementwise (`Set(1.0)` followed by `AddMat(-1.0, m)`). -/
noncomputable def matOneMinus (m : Mat) : Mat := m.map (fun r => r.map (fun x => 1 - x))

/-- `MulRowsVec`: multiply row `i` of the matrix by entry `i` of the vector. -/
noncomputable def mulRowsVec (m : Mat) (w : List ℝ) : Mat :=
  List.zipWith (fun r c => r.map (fun x => c * x)) m w

/-- A sparse matrix: a column count and, per row, the stored
`(column index, value)` pairs. -/
structure SMat where
  ncols : ℕ
  rows : List (List (ℕ × ℝ))

/-- Sum of the values stored at column `j` of a sparse row. -/
noncomputable def sumAt (pairs : List (ℕ × ℝ)) (j : ℕ) : ℝ :=
  ((pairs.filter (fun q => q.1 = j)).map (fun q => q.2)).sum

/-- Decode one sparse row to a dense row of length `n`. -/
noncomputable def decodeRow (n : ℕ) (pairs : List (ℕ × ℝ)) : List ℝ :=
  (List.range n).map (fun j => sumAt pairs j)

/-- Decode a sparse matrix to the dense matrix it represents
(`CuSparseMatrix::CopyToMat`). -/
noncomputable def smatToMat (s : SMat) : Mat := s.rows.map (fun r => decodeRow s.ncols r)

/-- `CuSparseMatrix::Sum`: the sum of all stored values. -/
noncomputable def smatSum (s : SMat) : ℝ := (s.rows.map (fun r => (r.map (fun q => q.2)).sum)).sum

/-- `TraceMatSmat(a, s, kTrans)`: sum over the stored entries `(j, v)` of
row `r` of `s` of `a[r][j] * v`. -/
noncomputable def traceMatSmat (a : Mat) (s : SMat) : ℝ :=
  (List.zipWith (fun ra pr => (pr.map (fun q => ra.getD q.1 0 * q.2)).sum) a s.rows).sum

/-- `GeneralMatrix`: supervision stored sparsely, densely, or compressed.
The compressed encoding is modelled by the dense matrix its
decompression yields. -/
inductive GMat where
  | sparse (s : SMat)
  | full (m : Mat)
  | compressed (m : Mat)

/-- Number of rows of a general matrix. -/
def gmatNumRows : GMat → ℕ
  | .sparse s => s.rows.length
  | .full m => matNumRows m
  | .compressed m => matNumRows m

/-- Number of columns of a general matrix. -/
def gmatNumCols : GMat → ℕ
  | .sparse s => s.ncols
  | .full m => matNumCols m
  | .compressed m => matNumCols m

/-- `CopyFromGeneralMat`: decode any encoding to a dense matrix. -/
noncomputable def gmatToMat : GMat → Mat
  | .sparse s => smatToMat s
  | .full m => m
  | .compressed m => m

/-! ## Objective functions (nnet-training.cc lines 283-438) -/

/-- The objective kind tagged on an output node. -/
inductive ObjectiveType where
  | kLinear
  | kQuadratic
  | kCrossEntropy

/-- ComputeObjectiveFunction (nnet-training.cc lines 283-405):
maps (supervision, objective kind, nnet output) to
`(tot_weight, tot_objf, optional derivative)`; `none` models the fatal
`KALDI_ERR` on an output/supervision column-count mismatch.  `wantDeriv`
models whether the `output_deriv` pointer is non-null. -/
noncomputable def ComputeObjectiveFunction (supervision : GMat)
    (objective_type : ObjectiveType) (output : Mat) (wantDeriv : Bool) :
    Option (ℝ × ℝ × Option Mat) :=
  if matNumCols output ≠ gmatNumCols supervision then none
  else
    match objective_type with
    | .kCrossEntropy =>
        let cu_post := gmatToMat supervision
        some (((gmatNumRows supervision * gmatNumCols supervision : ℕ) : ℝ),
          traceMatMatTrans (matLog output) cu_post
            + traceMatMatTrans (matLog (matOneMinus output)) (matOneMinus cu_post),
          if wantDeriv then
            some (matSub (matDivElems cu_post output)
              (matDivElems (matOneMinus cu_post) (matOneMinus output)))
          else none)
    | .kLinear =>
        match supervision with
        | .sparse s =>
            some (smatSum s, traceMatSmat output s,
              if wantDeriv then some (smatToMat s) else none)
        | .full m =>
            some (matSum m, traceMatMatTrans output m,
              if wantDeriv then some m else none)
        | .compressed m =>
            some (matSum m, traceMatMatTrans output m,
              if wantDeriv then some m else none)
    | .kQuadratic =>
        let diff := matSub (gmatToMat supervision) output
        some ((matNumRows diff : ℝ), -0.5 * traceMatMatTrans diff diff,
          if wantDeriv then some diff else none)

/-- ComputeRegularizer (nnet-training.cc lines 407-438): a
supervision-free objective on an output alone; `none` models the fatal
`KALDI_ERR` for an unhandled kind (only Linear and Quadratic are
handled).  The Quadratic derivative is the output copied and scaled by
1.0 (a no-op). -/
noncomputable def ComputeRegularizer (objective_type : ObjectiveType)
    (output : Mat) (wantDeriv : Bool) : Option (ℝ × ℝ × Option Mat) :=
  match objective_type with
  | .kLinear =>
      some ((matNumRows output : ℝ), matSum output,
        if wantDeriv then some (matOnes output) else none)
  | .kQuadratic =>
      some ((matNumRows output : ℝ), -0.5 * traceMatMatTrans output output,
        if wantDeriv then some (matScale 1 output) else none)
  | .kCrossEntropy => none

/-! ## The per-output statistics tracker (ObjectiveFunctionInfo) -/

/-- ObjectiveFunctionInfo: the per-output running state (phase index,
phase-scoped totals, all-time totals). -/
structure OFI where
  current_phase : ℕ
  tot_weight_this_phase : ℝ
  tot_objf_this_phase : ℝ
  tot_aux_objf_this_phase : ℝ
  tot_weight : ℝ
  tot_objf : ℝ
  tot_aux_objf : ℝ

/-- Modelled from the spec: the initial value of a lazily created
per-output record (the `ObjectiveFunctionInfo` initializer lives in
nnet-training.h, which is not part of src/).  A fresh record starts in
the first phase (index 0) with all totals zero; this matches the spec's
phase-report range `current_phase * minibatches_per_phase ..` starting
at minibatch 0 and the invariant that the phase index only ever
advances by exactly one. -/
noncomputable def initOFI : OFI := ⟨0, 0, 0, 0, 0, 0, 0⟩

/-- ObjectiveFunctionInfo::UpdateStats (nnet-training.cc lines 213-235).
`phase = minibatch_counter / minibatches_per_phase`; on a phase change
the new phase must be `current_phase + 1` (else the fatal
`KALDI_ASSERT`, modelled as `none`), a phase report is printed
(the returned `ℕ` counts reports emitted: 0 or 1), the phase totals are
reset, and `current_phase` advances; then the minibatch's values are
accumulated into both the phase totals and the all-time totals. -/
noncomputable def UpdateStats (info : OFI) (minibatches_per_phase minibatch_counter : ℕ)
    (w objf aux_objf : ℝ) : Option (OFI × ℕ) :=
  let phase := minibatch_counter / minibatches_per_phase
  if phase = info.current_phase then
    some (⟨info.current_phase,
      info.tot_weight_this_phase + w, info.tot_objf_this_phase + objf,
      info.tot_aux_objf_this_phase + aux_objf,
      info.tot_weight + w, info.tot_objf + objf,
      info.tot_aux_objf + aux_objf⟩, 0)
  else if phase = info.current_phase + 1 then
    some (⟨phase, 0 + w, 0 + objf, 0 + aux_objf,
      info.tot_weight + w, info.tot_objf + objf,
      info.tot_aux_objf + aux_objf⟩, 1)
  else none

/-- A sequence of `UpdateStats` calls on one record with consecutive
minibatch counter values starting at `c`; returns the final record and
the total number of phase reports emitted. -/
noncomputable def updateStatsSeq (info : OFI) (minibatches_per_phase c : ℕ) :
    List (ℝ × ℝ) → Option (OFI × ℕ)
  | [] => some (info, 0)
  | (w, o) :: rest =>
      match UpdateStats info minibatches_per_phase c w o 0 with
      | none => none
      | some (info1, r) =>
          (updateStatsSeq info1 minibatches_per_phase (c + 1) rest).map
            (fun p => (p.1, r + p.2))

/-- ObjectiveFunctionInfo::PrintTotalStats (nnet-training.cc lines
261-277): emits the overall-average report line and the machine-parsable
log-prob-per-frame line, and returns `tot_weight != 0.0`.  Log lines are
modelled by name-carrying tags. -/
noncomputable def printTotalStatsOne (name : String) (info : OFI) :
    Bool × List String :=
  (if info.tot_weight = 0 then false else true,
   [name ++ ":overall-average", name ++ ":log-prob-per-frame"])

/-- The fold inside NnetTrainer::PrintTotalStats (nnet-training.cc lines
204-209): `ans = ans || info.PrintTotalStats(name)` per entry, where the
C++ `||` short-circuits, so once `ans` is true the per-output
PrintTotalStats is no longer called and emits nothing. -/
noncomputable def printTotalStatsFold (acc : Bool × List String) :
    List (String × OFI) → Bool × List String
  | [] => acc
  | (name, info) :: rest =>
      printTotalStatsFold
        (if acc.1 then (true, acc.2)
         else ((printTotalStatsOne name info).1,
               acc.2 ++ (printTotalStatsOne name info).2)) rest

/-- NnetTrainer::PrintTotalStats (nnet-training.cc lines 200-211):
fold over the per-output statistics table. -/
noncomputable def NnetTrainerPrintTotalStats (infos : List (String × OFI)) :
    Bool × List String :=
  printTotalStatsFold (false, []) infos

/-! ## Output processing (NnetTrainer::ProcessOutputs, lines 109-198) -/

/-- A node of the model: its name, whether it is an output node, and
the objective kind tagged on it (`nnet_->GetNode(i).u.objective_type`). -/
structure Node where
  name : String
  is_output : Bool
  objective_type : ObjectiveType

/-- `GetNodeIndex` followed by `GetNode`: the first node with the given
name, if any. -/
def findNode : List Node → String → Option Node
  | [], _ => none
  | nd :: rest, n => if nd.name = n then some nd else findNode rest n

/-- One entry of an example's `io` list: a name, the supervision
features, and the optional per-row derivative weights (empty when
absent). -/
structure EgEntry where
  name : String
  features : GMat
  deriv_weights : List ℝ

/-- The trainer configuration fields read by ProcessOutputs. -/
structure TrainCfg where
  apply_deriv_weights : Bool
  add_regularizer : Bool
  print_interval : ℕ

/-- Lookup in the objective-scale map
(`objective_scales_.count(name) > 0 ? objective_scales_[name] : 1.0`). -/
def lookupScale : List (String × ℝ) → String → Option ℝ
  | [], _ => none
  | p :: rest, n => if p.1 = n then some p.2 else lookupScale rest n

/-- Lookup in the per-output statistics table. -/
def lookupInfo : List (String × OFI) → String → Option OFI
  | [], _ => none
  | p :: rest, n => if p.1 = n then some p.2 else lookupInfo rest n

/-- Store an updated record in the statistics table
(`objf_info_[name]` insert-or-update). -/
def insertInfo : List (String × OFI) → String → OFI → List (String × OFI)
  | [], n, i => [(n, i)]
  | p :: rest, n, i => if p.1 = n then (n, i) :: rest else p :: insertInfo rest n i

/-- The mutable trainer state that ProcessOutputs touches: the
statistics table, `num_minibatches_processed_`, and (as the observable
record of `computer->AcceptOutputDeriv` calls) the list of supplied
output derivatives. -/
structure POState where
  objf_info : List (String × OFI)
  num_minibatches : ℕ
  derivs : List (String × Mat)

/-- The trainer state at construction. -/
def initPOState : POState := ⟨[], 0, []⟩

/-- Processing of one entry of the example's io list (nnet-training.cc
lines 113-196): `none` models the fatal assertions (unknown node name,
regularizer node that is not an output node) and the fatal errors
inside ComputeObjectiveFunction / ComputeRegularizer / UpdateStats.
Non-output nodes (the example's inputs) are skipped.  For an output
node: compute the objective, scale the reported objective by the
output's scale-map entry, apply derivative weights and the scale to the
derivative, supply it, update the statistics and bump the minibatch
counter; then, if `add_regularizer` is set and a node named
`name ++ "-reg"` exists, do the same with ComputeRegularizer using the
primary node's objective kind, scaling the reported objective by the
primary `scale` (line 177) but the derivative by `regularizer_scale`. -/
noncomputable def processEgEntry (nnet : List Node) (scales : List (String × ℝ))
    (cfg : TrainCfg) (outputs : String → Mat) (st : POState) (io : EgEntry) :
    Option POState :=
  match findNode nnet io.name with
  | none => none
  | some node =>
    if node.is_output then
      let obj_type := node.objective_type
      let scale := (lookupScale scales io.name).getD 1
      let nnet_output := outputs io.name
      match ComputeObjectiveFunction io.features obj_type nnet_output true with
      | none => none
      | some (tot_weight, tot_objf0, derivOpt) =>
        let tot_objf := tot_objf0 * scale
        let d0 := derivOpt.getD []
        let d1 := if cfg.apply_deriv_weights ∧ io.deriv_weights ≠ [] then
                    mulRowsVec d0 io.deriv_weights else d0
        let d2 := if scale ≠ 1 then matScale scale d1 else d1
        let st1 : POState := ⟨st.objf_info, st.num_minibatches,
                              st.derivs ++ [(io.name, d2)]⟩
        match UpdateStats ((lookupInfo st1.objf_info io.name).getD initOFI)
            cfg.print_interval st1.num_minibatches tot_weight tot_objf 0 with
        | none => none
        | some (info1, _) =>
          let st2 : POState := ⟨insertInfo st1.objf_info io.name info1,
                                st1.num_minibatches + 1, st1.derivs⟩
          if cfg.add_regularizer then
            let reg_name := io.name ++ "-reg"
            match findNode nnet reg_name with
            | none => some st2
            | some regnode =>
              if regnode.is_output then
                let regularizer_scale := (lookupScale scales reg_name).getD 1
                match ComputeRegularizer obj_type (outputs reg_name) true with
                | none => none
                | some (tot_reg_weight, tot_reg_objf0, rderivOpt) =>
                  let tot_reg_objf := tot_reg_objf0 * scale
                  let r0 := rderivOpt.getD []
                  let r1 := if cfg.apply_deriv_weights ∧ io.deriv_weights ≠ [] then
                              mulRowsVec r0 io.deriv_weights else r0
                  let r2 := if regularizer_scale ≠ 1 then
                              matScale regularizer_scale r1 else r1
                  let st3 : POState := ⟨st2.objf_info, st2.num_minibatches,
                                        st2.derivs ++ [(reg_name, r2)]⟩
                  match UpdateStats ((lookupInfo st3.objf_info reg_name).getD initOFI)
                      cfg.print_interval st3.num_minibatches
                      tot_reg_weight tot_reg_objf 0 with
                  | none => none
                  | some (rinfo1, _) =>
                    some ⟨insertInfo st3.objf_info reg_name rinfo1,
                          st3.num_minibatches + 1, st3.derivs⟩
              else none
          else some st2
    else some st

/-- NnetTrainer::ProcessOutputs: iterate `processEgEntry` over the
example's io list. -/
noncomputable def ProcessOutputs (nnet : List Node) (scales : List (String × ℝ))
    (cfg : TrainCfg) (outputs : String → Mat) :
    POState → List EgEntry → Option POState
  | st, [] => some st
  | st, io :: rest =>
      match processEgEntry nnet scales cfg outputs st io with
      | none => none
      | some st1 => ProcessOutputs nnet scales cfg outputs st1 rest

/-- The number of minibatch-counter increments that processing one io
entry performs: one for an output node, plus one more when the
regularizer path processes a `"-reg"` node. -/
def egIncrement (nnet : List Node) (cfg : TrainCfg) (io : EgEntry) : ℕ :=
  match findNode nnet io.name with
  | none => 0
  | some node =>
    if node.is_output then
      1 + (if cfg.add_regularizer then
             match findNode nnet (io.name ++ "-reg") with
             | none => 0
             | some _ => 1
           else 0)
    else 0

/-- A two-node model family used to exercise the regularizer path: a
primary output node `"out"` tagged `k1` and a regularizer output node
`"out-reg"` tagged `k2`. -/
def regFamilyNnet (k1 k2 : ObjectiveType) : List Node :=
  [⟨"out", true, k1⟩, ⟨"out-reg", true, k2⟩]

/-- Configuration with the regularizer enabled and derivative weights
disabled. -/
def regFamilyCfg : TrainCfg := ⟨false, true, 10⟩

/-! ## Basic facts about the IEEE scalar model -/

theorem EF.add_fin (a b : ℝ) : EF.add (.fin a) (.fin b) = .fin (a + b) := rfl

theorem EF.mul_fin (a b : ℝ) : EF.mul (.fin a) (.fin b) = .fin (a * b) := rfl

theorem EF.sub_fin (a b : ℝ) : EF.sub (.fin a) (.fin b) = .fin (a - b) := rfl

theorem EF.add_fin_zero (x : EF) : EF.add x (EF.fin 0) = x := by
  cases x <;> simp [EF.add]

theorem EF.beq_fin_zero_of_ne {c : ℝ} (hc : c ≠ 0) :
    EF.beq (EF.fin c) (EF.fin 0) = false := by
  simp [EF.beq, hc]

/-- Adding a scaled all-zero delta leaves every parameter unchanged. -/
theorem addScaledEF_zero (s : ℝ) (xs ys : List EF) (h : xs.length = ys.length) :
    addScaledEF (EF.fin s) xs (ys.map (fun _ => EF.fin 0)) = xs := by
  induction xs generalizing ys with
  | nil => simp [addScaledEF]
  | cons x xs ih =>
    cases ys with
    | nil => simp at h
    | cons y ys =>
      simp only [List.length_cons, Nat.add_right_cancel_iff] at h
      simp [addScaledEF, EF.mul_fin, EF.add_fin_zero] at *
      exact ih ys h

/-- Scaling an all-zero delta by the momentum keeps it all zero. -/
theorem scaleEF_zero (m : ℝ) (ys : List EF) :
    scaleEF (EF.fin m) (ys.map (fun _ => EF.fin 0)) = ys.map (fun _ => EF.fin 0) := by
  simp [scaleEF, List.map_map, Function.comp, EF.mul_fin]

/-! ## Claim C8 -/

/-- Claim C8 (confirmed): with momentum = 0 and max_param_change = 0 no
delta model is allocated at construction (nnet-training.cc lines 34-35),
the backward pass writes the parameter gradients directly into the model
(line 79), and a call to Train changes the model by exactly the raw
computed gradient with scale 1 — the update-rule block (lines 87-106) is
skipped entirely. -/
theorem claim_C8_no_delta_raw_gradient (nnet grad : List EF) :
    mkDeltaNnet (EF.fin 0) (EF.fin 0) nnet = none ∧
    trainStep (EF.fin 0) (EF.fin 0) nnet
        (mkDeltaNnet (EF.fin 0) (EF.fin 0) nnet) grad
      = (List.zipWith EF.add nnet grad, none) := by
  have h : mkDeltaNnet (EF.fin 0) (EF.fin 0) nnet = none := by
    simp [mkDeltaNnet, EF.beq]
  exact ⟨h, by rw [h]; simp [trainStep]⟩

/-! ## Claim C1 -/

/-- Claim C1 counterexample: a NaN parameter-update norm is NOT caught
by the guard (NaN fails the `param_delta > max_param_change` comparison
at line 92, inside which the non-finiteness test at line 93 is nested),
so the step is applied: the model changes and the delta model is not
zeroed — refuting the claim that any non-finite norm (NaN or infinite)
leaves the model unchanged with a zeroed delta. -/
theorem claim_C1_counterexample :
    paramDeltaE (EF.fin 0) (List.zipWith EF.add [EF.fin 0] [EF.nan]) = EF.nan ∧
    (trainStep (EF.fin 0) (EF.fin 1) [EF.fin 1] (some [EF.fin 0]) [EF.nan]).1
      ≠ [EF.fin 1] ∧
    (trainStep (EF.fin 0) (EF.fin 1) [EF.fin 1] (some [EF.fin 0]) [EF.nan]).2
      ≠ some [EF.fin 0] := by
  have hb : EF.beq (EF.fin 1) (EF.fin 0) = false :=
    EF.beq_fin_zero_of_ne one_ne_zero
  have hpd : paramDeltaE (EF.fin 0) (List.zipWith EF.add [EF.fin 0] [EF.nan])
      = EF.nan := rfl
  have hpd2 : paramDeltaE (EF.fin 0) [EF.nan] = EF.nan := rfl
  have hrun : trainStep (EF.fin 0) (EF.fin 1) [EF.fin 1] (some [EF.fin 0])
      [EF.nan] = ([EF.nan], some [EF.nan]) := by
    simp [trainStep, updateRule, hb, hpd2, EF.gt, EF.add, EF.mul, EF.sub,
      addScaledEF, scaleEF]
  refine ⟨hpd, ?_, ?_⟩ <;> rw [hrun] <;> simp

/-- Claim C1 (amended): only a positively infinite parameter-update norm
is discarded: if `param_delta = sqrt(dot(delta,delta)) * (1 - momentum)`
is `+inf` (so that `param_delta > max_param_change` holds and
`param_delta - param_delta != 0` detects non-finiteness), then after the
call the model's parameters are unchanged, the delta model's contents
are zero, and training continues (the update is total, no fatal error);
a NaN norm instead bypasses the guard and the step is applied. -/
theorem claim_C1_infinite_step_discarded (m c : ℝ) (hc : c ≠ 0)
    (nnet dm grad : List EF)
    (hlen : nnet.length = (List.zipWith EF.add dm grad).length)
    (hinf : paramDeltaE (EF.fin m) (List.zipWith EF.add dm grad) = EF.pinf) :
    trainStep (EF.fin m) (EF.fin c) nnet (some dm) grad =
      (nnet, some ((List.zipWith EF.add dm grad).map (fun _ => EF.fin 0))) := by
  have hb := EF.beq_fin_zero_of_ne hc
  simp only [trainStep, updateRule, hb, hinf, Bool.false_eq_true, if_false,
    EF.gt, EF.sub, EF.beq, Bool.not_false, if_true, hc]
  rw [addScaledEF_zero (1 - m) nnet (List.zipWith EF.add dm grad)
    (by simpa using hlen)]
  rw [scaleEF_zero]

/-- Witness for claim C1: a concrete infinite-gradient run in which the
guard fires, the model is unchanged and the delta model is zeroed. -/
theorem claim_C1_witness :
    (1 : ℝ) ≠ 0 ∧
    paramDeltaE (EF.fin 0) (List.zipWith EF.add [EF.fin 0] [EF.pinf]) = EF.pinf ∧
    trainStep (EF.fin 0) (EF.fin 1) [EF.fin 1] (some [EF.fin 0]) [EF.pinf]
      = ([EF.fin 1], some [EF.fin 0]) := by
  have h1 : (1 : ℝ) ≠ 0 := one_ne_zero
  have h2 : paramDeltaE (EF.fin 0) (List.zipWith EF.add [EF.fin 0] [EF.pinf])
      = EF.pinf := by
    norm_num [paramDeltaE, dotEF, EF.add, EF.mul, EF.sqrt, EF.sub]
  refine ⟨h1, h2, ?_⟩
  have h3 := claim_C1_infinite_step_discarded 0 1 h1 [EF.fin 1] [EF.fin 0]
    [EF.pinf] (by simp) h2
  simpa [EF.add] using h3

/-! ## Claim C3 -/

/-- The sum of squares of a list of reals. -/
noncomputable def sumSq (l : List ℝ) : ℝ := (l.map (fun x => x * x)).sum

/-- Euclidean norm of a list of reals. -/
noncomputable def l2norm (l : List ℝ) : ℝ := Real.sqrt (sumSq l)

/-- The effective scale produced by the clipping branch at line 97:
`(1 - momentum) * (max_param_change / param_delta)` with
`param_delta = sqrt(S) * (1 - momentum)` for `S` the delta's squared norm. -/
noncomputable def clipScale (m c S : ℝ) : ℝ :=
  (1 - m) * (c / (Real.sqrt S * (1 - m)))

theorem foldl_add_eq (l : List ℝ) (a : ℝ) :
    l.foldl (fun x y => x + y) a = a + l.sum := by
  induction l generalizing a with
  | nil => simp
  | cons x xs ih => simp [ih, add_assoc]

theorem foldl_add_fin (l : List ℝ) (z : ℝ) :
    (l.map EF.fin).foldl EF.add (EF.fin z) = EF.fin (z + l.sum) := by
  induction l generalizing z with
  | nil => simp
  | cons x xs ih => simp [EF.add_fin, ih, add_assoc]

theorem dotEF_map_fin (d : List ℝ) :
    dotEF (d.map EF.fin) (d.map EF.fin) = EF.fin (sumSq d) := by
  have h1 : List.zipWith EF.mul (d.map EF.fin) (d.map EF.fin)
      = (d.map (fun x => x * x)).map EF.fin := by
    induction d with
    | nil => simp
    | cons x xs ih => simp [EF.mul_fin, ih]
  rw [dotEF, h1, foldl_add_fin, zero_add, sumSq]

theorem sumSq_nonneg (l : List ℝ) : 0 ≤ sumSq l := by
  refine List.sum_nonneg ?_
  intro x hx
  obtain ⟨y, _, rfl⟩ := List.mem_map.mp hx
  exact mul_self_nonneg y

theorem sumSq_scale (s : ℝ) (l : List ℝ) :
    sumSq (l.map (fun x => s * x)) = s ^ 2 * sumSq l := by
  rw [sumSq, sumSq, List.map_map]
  rw [show ((fun x => x * x) ∘ fun x => s * x) = fun x => s ^ 2 * (x * x) from
    funext (fun x => by simp [Function.comp]; ring)]
  exact List.sum_map_mul_left l (fun x => x * x) (s ^ 2)

theorem addScaledEF_map_fin (s : ℝ) (p d : List ℝ) :
    addScaledEF (EF.fin s) (p.map EF.fin) (d.map EF.fin)
      = (List.zipWith (fun a b => a + s * b) p d).map EF.fin := by
  induction p generalizing d with
  | nil => simp [addScaledEF]
  | cons x xs ih =>
    cases d with
    | nil => simp [addScaledEF]
    | cons y ys =>
      simp only [List.map_cons, addScaledEF, List.zipWith_cons_cons,
        EF.mul_fin, EF.add_fin]
      exact congrArg _ (ih ys)

theorem scaleEF_map_fin (m : ℝ) (d : List ℝ) :
    scaleEF (EF.fin m) (d.map EF.fin) = (d.map (fun x => m * x)).map EF.fin := by
  simp [scaleEF, List.map_map, Function.comp, EF.mul_fin]

/-- Claim C3 (confirmed): when a delta model exists,
`max_param_change != 0`, and the computed
`param_delta = sqrt(dot(delta,delta)) * (1 - momentum)` is finite and
strictly greater than `max_param_change`, the scale is rescaled by
`max_param_change / param_delta` (line 97), so the change actually added
to the model (`clipScale * delta`) has Euclidean norm exactly
`max_param_change`, and the retained delta model is momentum times its
pre-update value (line 105). -/
theorem claim_C3_clipping (m c : ℝ) (p d : List ℝ) (hc : 0 < c)
    (hgt : c < Real.sqrt (sumSq d) * (1 - m)) :
    updateRule (EF.fin m) (EF.fin c) (p.map EF.fin) (d.map EF.fin)
      = ((List.zipWith (fun a b => a + clipScale m c (sumSq d) * b) p d).map EF.fin,
         (d.map (fun x => m * x)).map EF.fin) ∧
    l2norm (d.map (fun x => clipScale m c (sumSq d) * x)) = c := by
  have hS0 : 0 ≤ sumSq d := sumSq_nonneg d
  have hsq0 : 0 ≤ Real.sqrt (sumSq d) := Real.sqrt_nonneg _
  have hpd_pos : 0 < Real.sqrt (sumSq d) * (1 - m) := lt_trans hc hgt
  have h1m : 0 < 1 - m := by nlinarith
  have hsqrt_pos : 0 < Real.sqrt (sumSq d) := by nlinarith
  have hpd_ne : Real.sqrt (sumSq d) * (1 - m) ≠ 0 := ne_of_gt hpd_pos
  have hb := EF.beq_fin_zero_of_ne (ne_of_gt hc)
  have hppd : paramDeltaE (EF.fin m) (d.map EF.fin)
      = EF.fin (Real.sqrt (sumSq d) * (1 - m)) := by
    rw [paramDeltaE, dotEF_map_fin, EF.sub_fin]
    simp [EF.sqrt, not_lt.mpr hS0, EF.mul_fin]
  have hgtE : EF.gt (EF.fin (Real.sqrt (sumSq d) * (1 - m))) (EF.fin c) = true := by
    simp [EF.gt, hgt]
  have hdivE : EF.div (EF.fin c) (EF.fin (Real.sqrt (sumSq d) * (1 - m)))
      = EF.fin (c / (Real.sqrt (sumSq d) * (1 - m))) := by
    simp [EF.div, hpd_ne]
  constructor
  · simp only [updateRule, hb, Bool.false_eq_true, if_false, hppd, hgtE,
      if_true, EF.sub_fin, sub_self, EF.beq, if_pos, Bool.not_true,
      Bool.false_eq_true, EF.sub, hdivE, EF.mul_fin]
    rw [if_neg (ne_of_gt hc)]
    simp only [Bool.false_eq_true, if_false]
    rw [addScaledEF_map_fin, scaleEF_map_fin, clipScale]
  · rw [l2norm, sumSq_scale, Real.sqrt_mul (sq_nonneg _), Real.sqrt_sq_eq_abs]
    have hs_pos : 0 < clipScale m c (sumSq d) := by
      rw [clipScale]
      positivity
    rw [abs_of_pos hs_pos, clipScale]
    field_simp
    ring

/-- Witness for claim C3: a concrete clipped step (momentum 0, cap 1,
delta of norm 2) in which the applied change has norm exactly the cap
and the retained delta is momentum times the pre-update delta. -/
theorem claim_C3_witness :
    (0 : ℝ) < 1 ∧ (1 : ℝ) < Real.sqrt (sumSq [(2 : ℝ)]) * (1 - 0) ∧
    (updateRule (EF.fin 0) (EF.fin 1) ([(0 : ℝ)].map EF.fin)
        ([(2 : ℝ)].map EF.fin)
      = ((List.zipWith (fun a b => a + clipScale 0 1 (sumSq [(2 : ℝ)]) * b)
            [(0 : ℝ)] [(2 : ℝ)]).map EF.fin,
         ([(2 : ℝ)].map (fun x => 0 * x)).map EF.fin) ∧
     l2norm ([(2 : ℝ)].map (fun x => clipScale 0 1 (sumSq [(2 : ℝ)]) * x)) = 1) := by
  have h4 : sumSq [(2 : ℝ)] = 4 := by norm_num [sumSq]
  have hs : Real.sqrt 4 = 2 := by
    rw [show (4 : ℝ) = 2 ^ 2 by norm_num, Real.sqrt_sq (by norm_num : (0:ℝ) ≤ 2)]
  have hgt : (1 : ℝ) < Real.sqrt (sumSq [(2 : ℝ)]) * (1 - 0) := by
    rw [h4, hs]; norm_num
  exact ⟨by norm_num, hgt, claim_C3_clipping 0 1 [0] [2] (by norm_num) hgt⟩

/-! ## Claim C4 -/

/-- Claim C4 counterexample: for a fresh per-output record, ten
consecutive UpdateStats calls with minibatches_per_phase = 10 and
counters 0..9 all fall in phase 0, which is the record's initial
current_phase, so NO phase report is emitted (the claim says exactly
one); the all-time and phase totals both equal the sum of the ten calls'
weights/objectives. -/
theorem claim_C4_counterexample :
    updateStatsSeq initOFI 10 0
        [((1:ℝ), (1:ℝ)), (1, 1), (1, 1), (1, 1), (1, 1),
         (1, 1), (1, 1), (1, 1), (1, 1), (1, 1)]
      = some (⟨0, 10, 10, 0, 10, 10, 0⟩, 0) ∧ (0 : ℕ) ≠ 1 := by
  refine ⟨?_, by decide⟩
  norm_num [updateStatsSeq, UpdateStats, initOFI]

/-- Claim C4 (amended): for a fresh per-output record, calling
UpdateStats with minibatches_per_phase = 10 exactly 10 times with
consecutive counters 0..9 emits NO phase report (all ten calls fall in
the record's initial phase 0) and leaves both the phase-scoped totals
and the all-time totals equal to the sum of the ten calls; the single
report of that first phase is emitted by the NEXT call (counter 10),
which resets the phase-scoped totals (re-accumulating only call 11's
values) while the all-time totals keep the full sum. -/
theorem claim_C4_phase_report (w o : ℕ → ℝ) :
    updateStatsSeq initOFI 10 0
        [(w 0, o 0), (w 1, o 1), (w 2, o 2), (w 3, o 3), (w 4, o 4),
         (w 5, o 5), (w 6, o 6), (w 7, o 7), (w 8, o 8), (w 9, o 9)]
      = some (⟨0,
          w 0 + w 1 + w 2 + w 3 + w 4 + w 5 + w 6 + w 7 + w 8 + w 9,
          o 0 + o 1 + o 2 + o 3 + o 4 + o 5 + o 6 + o 7 + o 8 + o 9, 0,
          w 0 + w 1 + w 2 + w 3 + w 4 + w 5 + w 6 + w 7 + w 8 + w 9,
          o 0 + o 1 + o 2 + o 3 + o 4 + o 5 + o 6 + o 7 + o 8 + o 9, 0⟩, 0) ∧
    updateStatsSeq initOFI 10 0
        [(w 0, o 0), (w 1, o 1), (w 2, o 2), (w 3, o 3), (w 4, o 4),
         (w 5, o 5), (w 6, o 6), (w 7, o 7), (w 8, o 8), (w 9, o 9),
         (w 10, o 10)]
      = some (⟨1, w 10, o 10, 0,
          w 0 + w 1 + w 2 + w 3 + w 4 + w 5 + w 6 + w 7 + w 8 + w 9 + w 10,
          o 0 + o 1 + o 2 + o 3 + o 4 + o 5 + o 6 + o 7 + o 8 + o 9 + o 10,
          0⟩, 1) := by
  constructor <;>
    · simp only [updateStatsSeq, UpdateStats, initOFI]
      norm_num [OFI.mk.injEq]

/-! ## Claims C7 and C10 -/

theorem printTotalStatsFold_fst (acc : Bool × List String)
    (l : List (String × OFI)) :
    (printTotalStatsFold acc l).1 = true ↔
      acc.1 = true ∨ ∃ p ∈ l, p.2.tot_weight ≠ 0 := by
  induction l generalizing acc with
  | nil => simp [printTotalStatsFold]
  | cons p rest ih =>
    obtain ⟨name, info⟩ := p
    rw [printTotalStatsFold]
    by_cases h : acc.1 = true
    · rw [if_pos h, ih]
      simp [h]
    · rw [if_neg h, ih]
      rw [Bool.not_eq_true] at h
      by_cases hw : info.tot_weight = 0
      · simp [printTotalStatsOne, hw, h]
      · simp [printTotalStatsOne, hw, h]

theorem printTotalStatsFold_append (acc : Bool × List String)
    (l1 l2 : List (String × OFI)) :
    printTotalStatsFold acc (l1 ++ l2)
      = printTotalStatsFold (printTotalStatsFold acc l1) l2 := by
  induction l1 generalizing acc with
  | nil => simp [printTotalStatsFold]
  | cons p rest ih =>
    obtain ⟨name, info⟩ := p
    rw [List.cons_append, printTotalStatsFold, printTotalStatsFold, ih]

theorem printTotalStatsFold_true (logs : List String)
    (l : List (String × OFI)) :
    printTotalStatsFold (true, logs) l = (true, logs) := by
  induction l with
  | nil => rfl
  | cons p rest ih =>
    obtain ⟨name, info⟩ := p
    rw [printTotalStatsFold, if_pos rfl]
    exact ih

/-- Claim C7 (confirmed): NnetTrainer::PrintTotalStats returns true if
and only if at least one output name accumulated nonzero total weight,
and the returned value does not depend on the iteration order of the
per-output statistics table. -/
theorem claim_C7_print_total_stats (l : List (String × OFI)) :
    ((NnetTrainerPrintTotalStats l).1 = true ↔
      ∃ p ∈ l, p.2.tot_weight ≠ 0) ∧
    ∀ l', l.Perm l' →
      (NnetTrainerPrintTotalStats l).1 = (NnetTrainerPrintTotalStats l').1 := by
  have base : ∀ ls : List (String × OFI),
      (NnetTrainerPrintTotalStats ls).1 = true ↔
        ∃ p ∈ ls, p.2.tot_weight ≠ 0 := by
    intro ls
    rw [NnetTrainerPrintTotalStats, printTotalStatsFold_fst]
    simp
  refine ⟨base l, ?_⟩
  intro l' hperm
  by_cases hb : (NnetTrainerPrintTotalStats l).1 = true
  · have hex : ∃ p ∈ l', p.2.tot_weight ≠ 0 := by
      obtain ⟨p, hp, hw⟩ := (base l).mp hb
      exact ⟨p, hperm.mem_iff.mp hp, hw⟩
    rw [hb, (base l').mpr hex]
  · have hnone : ¬ ∃ p ∈ l', p.2.tot_weight ≠ 0 := by
      rintro ⟨p, hp, hw⟩
      exact hb ((base l).mpr ⟨p, hperm.mem_iff.mpr hp, hw⟩)
    have hb1 : (NnetTrainerPrintTotalStats l).1 = false := by
      cases hx : (NnetTrainerPrintTotalStats l).1
      · rfl
      · exact absurd hx hb
    have hb2 : (NnetTrainerPrintTotalStats l').1 = false := by
      cases hx : (NnetTrainerPrintTotalStats l').1
      · rfl
      · exact absurd ((base l').mp hx) hnone
    rw [hb1, hb2]

/-- Witness for claim C7: a concrete two-entry table (one zero-weight,
one nonzero-weight output), in both iteration orders. -/
theorem claim_C7_witness :
    [(("a" : String), (⟨0, 0, 0, 0, 5, 1, 0⟩ : OFI)), ("b", initOFI)].Perm
      [(("b" : String), initOFI), ("a", (⟨0, 0, 0, 0, 5, 1, 0⟩ : OFI))] ∧
    (NnetTrainerPrintTotalStats
        [("a", ⟨0, 0, 0, 0, 5, 1, 0⟩), ("b", initOFI)]).1
      = (NnetTrainerPrintTotalStats
        [("b", initOFI), ("a", ⟨0, 0, 0, 0, 5, 1, 0⟩)]).1 ∧
    ((NnetTrainerPrintTotalStats
        [("a", ⟨0, 0, 0, 0, 5, 1, 0⟩), ("b", initOFI)]).1 = true ↔
      ∃ p ∈ [(("a" : String), (⟨0, 0, 0, 0, 5, 1, 0⟩ : OFI)), ("b", initOFI)],
        p.2.tot_weight ≠ 0) := by
  have hperm :
      [(("a" : String), (⟨0, 0, 0, 0, 5, 1, 0⟩ : OFI)), ("b", initOFI)].Perm
        [(("b" : String), initOFI), ("a", (⟨0, 0, 0, 0, 5, 1, 0⟩ : OFI))] :=
    List.Perm.swap _ _ _
  have hthm := claim_C7_print_total_stats
    [("a", ⟨0, 0, 0, 0, 5, 1, 0⟩), ("b", initOFI)]
  exact ⟨hperm, hthm.2 _ hperm, hthm.1⟩

/-- Claim C10 (confirmed): in NnetTrainer::PrintTotalStats, once one
output's report has returned true (nonzero accumulated weight), the
short-circuiting `ans = ans || info.PrintTotalStats(name)` skips the
call for every output iterated after it, so no further report or
log-prob-per-frame line is emitted, while the returned value is still
true. -/
theorem claim_C10_short_circuit (l1 : List (String × OFI)) (name : String)
    (info : OFI) (l2 : List (String × OFI))
    (h1 : (NnetTrainerPrintTotalStats l1).1 = false)
    (h2 : info.tot_weight ≠ 0) :
    NnetTrainerPrintTotalStats (l1 ++ (name, info) :: l2)
      = (true, (NnetTrainerPrintTotalStats l1).2
          ++ (printTotalStatsOne name info).2) := by
  have hone : (printTotalStatsOne name info).1 = true := by
    simp [printTotalStatsOne, h2]
  have hsplit : NnetTrainerPrintTotalStats l1
      = (false, (NnetTrainerPrintTotalStats l1).2) := by
    rw [← h1]
  rw [NnetTrainerPrintTotalStats, printTotalStatsFold_append]
  rw [show printTotalStatsFold (false, []) l1 = NnetTrainerPrintTotalStats l1
    from rfl, hsplit]
  rw [printTotalStatsFold, if_neg (by simp)]
  rw [hone, printTotalStatsFold_true]

/-- Witness for claim C10: a concrete table in which a zero-weight
output precedes the first nonzero-weight output, which is followed by
another nonzero-weight output whose report is skipped. -/
theorem claim_C10_witness :
    (NnetTrainerPrintTotalStats [(("z" : String), initOFI)]).1 = false ∧
    ((⟨0, 0, 0, 0, 5, 1, 0⟩ : OFI).tot_weight ≠ 0) ∧
    NnetTrainerPrintTotalStats
        ([(("z" : String), initOFI)] ++ ("a", (⟨0, 0, 0, 0, 5, 1, 0⟩ : OFI))
          :: [("b", ⟨0, 0, 0, 0, 7, 1, 0⟩)])
      = (true, (NnetTrainerPrintTotalStats [(("z" : String), initOFI)]).2
          ++ (printTotalStatsOne "a" ⟨0, 0, 0, 0, 5, 1, 0⟩).2) := by
  have h1 : (NnetTrainerPrintTotalStats [(("z" : String), initOFI)]).1 = false := by
    simp [NnetTrainerPrintTotalStats, printTotalStatsFold, printTotalStatsOne,
      initOFI]
  have h2 : (⟨0, 0, 0, 0, 5, 1, 0⟩ : OFI).tot_weight ≠ 0 := by norm_num
  exact ⟨h1, h2, claim_C10_short_circuit [("z", initOFI)] "a" _ _ h1 h2⟩

/-! ## Claim C6 -/

theorem sumAt_nil (j : ℕ) : sumAt [] j = 0 := rfl

theorem sumAt_cons (q : ℕ × ℝ) (rest : List (ℕ × ℝ)) (j : ℕ) :
    sumAt (q :: rest) j = (if q.1 = j then q.2 else 0) + sumAt rest j := by
  by_cases h : q.1 = j <;> simp [sumAt, List.filter_cons, h]

theorem getD_decodeRow (n j : ℕ) (pairs : List (ℕ × ℝ)) (h : j < n) :
    (decodeRow n pairs).getD j 0 = sumAt pairs j := by
  simp [decodeRow, List.getD, List.getElem?_map, List.getElem?_range h]

theorem sum_range_map (f : ℕ → ℝ) (n : ℕ) :
    ((List.range n).map f).sum = ∑ j in Finset.range n, f j := by
  induction n with
  | zero => simp
  | succ m ih =>
      rw [List.range_succ, List.map_append, List.sum_append,
        Finset.sum_range_succ, ih]
      simp

theorem zipWith_mul_sum (a b : List ℝ) (n : ℕ) (ha : a.length = n)
    (hb : b.length = n) :
    (List.zipWith (fun x y => x * y) a b).sum
      = ∑ j in Finset.range n, a.getD j 0 * b.getD j 0 := by
  induction a generalizing b n with
  | nil =>
      simp only [List.length_nil] at ha
      subst ha
      simp
  | cons x xs ih =>
      cases b with
      | nil =>
          simp only [List.length_cons, List.length_nil] at ha hb
          omega
      | cons y ys =>
          simp only [List.length_cons] at ha hb
          subst ha
          rw [Finset.sum_range_succ']
          simp only [List.getD_cons_succ, List.getD_cons_zero,
            List.zipWith_cons_cons, List.sum_cons]
          rw [ih ys xs.length rfl (by omega)]
          ring

theorem sum_sumAt (pairs : List (ℕ × ℝ)) (n : ℕ)
    (hb : ∀ q ∈ pairs, q.1 < n) :
    ∑ j in Finset.range n, sumAt pairs j = (pairs.map (fun q => q.2)).sum := by
  induction pairs with
  | nil => simp [sumAt_nil]
  | cons q rest ih =>
      simp only [sumAt_cons, List.map_cons, List.sum_cons]
      rw [Finset.sum_add_distrib, ih (fun p hp => hb p (List.mem_cons_of_mem q hp))]
      rw [Finset.sum_ite_eq (Finset.range n) q.1 (fun _ => q.2)]
      rw [if_pos (Finset.mem_range.mpr (hb q (List.mem_cons_self q rest)))]

theorem sparse_row_trace (pairs : List (ℕ × ℝ)) (orow : List ℝ) (n : ℕ)
    (hb : ∀ q ∈ pairs, q.1 < n) :
    (pairs.map (fun q => orow.getD q.1 0 * q.2)).sum
      = ∑ j in Finset.range n, orow.getD j 0 * sumAt pairs j := by
  induction pairs with
  | nil => simp [sumAt_nil]
  | cons q rest ih =>
      simp only [List.map_cons, List.sum_cons, sumAt_cons, mul_add]
      rw [Finset.sum_add_distrib,
        ih (fun p hp => hb p (List.mem_cons_of_mem q hp))]
      have h1 : ∀ j, orow.getD j 0 * (if q.1 = j then q.2 else 0)
          = if q.1 = j then orow.getD j 0 * q.2 else 0 := by
        intro j
        by_cases h : q.1 = j <;> simp [h]
      rw [Finset.sum_congr rfl (fun j _ => h1 j)]
      rw [Finset.sum_ite_eq (Finset.range n) q.1 (fun j => orow.getD j 0 * q.2)]
      rw [if_pos (Finset.mem_range.mpr (hb q (List.mem_cons_self q rest)))]

theorem trace_row_eq (pairs : List (ℕ × ℝ)) (orow : List ℝ) (n : ℕ)
    (hlen : orow.length = n) (hb : ∀ q ∈ pairs, q.1 < n) :
    (pairs.map (fun q => orow.getD q.1 0 * q.2)).sum
      = (List.zipWith (fun x y => x * y) orow (decodeRow n pairs)).sum := by
  rw [zipWith_mul_sum orow (decodeRow n pairs) n hlen
    (by simp [decodeRow]), sparse_row_trace pairs orow n hb]
  refine Finset.sum_congr rfl (fun j hj => ?_)
  rw [getD_decodeRow n j pairs (Finset.mem_range.mp hj)]

theorem trace_rows_eq (n : ℕ) : ∀ (out : List (List ℝ)) (rows : List (List (ℕ × ℝ))),
    (∀ row ∈ out, row.length = n) → (∀ r ∈ rows, ∀ q ∈ r, q.1 < n) →
    (List.zipWith (fun ra pr => (pr.map (fun q => ra.getD q.1 0 * q.2)).sum)
        out rows).sum
      = (List.zipWith (fun ra rb => (List.zipWith (fun x y => x * y) ra rb).sum)
          out (rows.map (decodeRow n))).sum
  | [], rows, _, _ => by simp
  | orow :: orest, [], _, _ => by simp
  | orow :: orest, pr :: prs, hcols, hb => by
      simp only [List.map_cons, List.zipWith_cons_cons, List.sum_cons]
      rw [trace_row_eq pr orow n (hcols orow (List.mem_cons_self orow orest))
        (hb pr (List.mem_cons_self pr prs))]
      rw [trace_rows_eq n orest prs
        (fun row hr => hcols row (List.mem_cons_of_mem orow hr))
        (fun r hr => hb r (List.mem_cons_of_mem pr hr))]

theorem traceMatSmat_eq_dense (output : Mat) (s : SMat)
    (hcols : ∀ row ∈ output, row.length = s.ncols)
    (hb : ∀ r ∈ s.rows, ∀ q ∈ r, q.1 < s.ncols) :
    traceMatSmat output s = traceMatMatTrans output (smatToMat s) := by
  rw [traceMatSmat, traceMatMatTrans, smatToMat]
  exact trace_rows_eq s.ncols output s.rows hcols hb

theorem sum_rows_eq (n : ℕ) : ∀ (rows : List (List (ℕ × ℝ))),
    (∀ r ∈ rows, ∀ q ∈ r, q.1 < n) →
    ((rows.map (decodeRow n)).map List.sum).sum
      = (rows.map (fun r => (r.map (fun q => q.2)).sum)).sum
  | [], _ => by simp
  | pr :: prs, hb => by
      simp only [List.map_cons, List.sum_cons]
      rw [show (decodeRow n pr).sum = ∑ j in Finset.range n, sumAt pr j from by
        rw [decodeRow, sum_range_map]]
      rw [sum_sumAt pr n (hb pr (List.mem_cons_self pr prs))]
      rw [sum_rows_eq n prs (fun r hr => hb r (List.mem_cons_of_mem pr hr))]

theorem matSum_smatToMat (s : SMat)
    (hb : ∀ r ∈ s.rows, ∀ q ∈ r, q.1 < s.ncols) :
    matSum (smatToMat s) = smatSum s := by
  rw [matSum, smatToMat, smatSum]
  exact sum_rows_eq s.ncols s.rows hb

/-- Claim C6 (confirmed): for the Linear objective kind, the same
logical supervision values encoded as a sparse matrix, a dense matrix,
or a compressed matrix (all decoding to the same dense values) give
ComputeObjectiveFunction results with equal tot_weight (the sum of
supervision values) and equal tot_objf (the dot product of supervision
and output) — and the requested gradient equals the decoded supervision
matrix in all three cases. -/
theorem claim_C6_linear_encodings (s : SMat) (md output : Mat)
    (hmd : md = smatToMat s)
    (hb : ∀ r ∈ s.rows, ∀ q ∈ r, q.1 < s.ncols)
    (hrows : output.length = s.rows.length)
    (hcols : ∀ row ∈ output, row.length = s.ncols)
    (hdim : matNumCols output = s.ncols) :
    ComputeObjectiveFunction (GMat.sparse s) .kLinear output true
      = some (smatSum s, traceMatSmat output s, some (smatToMat s)) ∧
    ComputeObjectiveFunction (GMat.full md) .kLinear output true
      = some (smatSum s, traceMatSmat output s, some (smatToMat s)) ∧
    ComputeObjectiveFunction (GMat.compressed md) .kLinear output true
      = some (smatSum s, traceMatSmat output s, some (smatToMat s)) := by
  have hdimd : matNumCols md = s.ncols := by
    subst hmd
    cases hr : s.rows with
    | nil =>
        have ho : output = [] := by
          have h0 := hrows
          rw [hr] at h0
          exact List.length_eq_zero.mp h0
        rw [smatToMat, hr]
        show matNumCols [] = s.ncols
        rw [← hdim, ho]
    | cons r rs =>
        rw [smatToMat, hr]
        simp [matNumCols, decodeRow]
  have hsum := matSum_smatToMat s hb
  have htr := traceMatSmat_eq_dense output s hcols hb
  refine ⟨?_, ?_, ?_⟩
  · rw [ComputeObjectiveFunction, if_neg (by simp [gmatNumCols, hdim])]
    simp
  · rw [ComputeObjectiveFunction,
      if_neg (by simp [gmatNumCols, hdimd, hdim])]
    rw [hmd, hsum, ← htr]
    simp
  · rw [ComputeObjectiveFunction,
      if_neg (by simp [gmatNumCols, hdimd, hdim])]
    rw [hmd, hsum, ← htr]
    simp

/-- Witness for claim C6: a concrete one-row, two-column supervision
(values 3 and 4) against the output row (5, 6): all three encodings
yield weight 7, objective 39 and gradient equal to the decoded dense
supervision. -/
theorem claim_C6_witness :
    (∀ r ∈ (⟨2, [[(0, (3:ℝ)), (1, 4)]]⟩ : SMat).rows, ∀ q ∈ r, q.1 < 2) ∧
    (ComputeObjectiveFunction
        (GMat.sparse ⟨2, [[(0, (3:ℝ)), (1, 4)]]⟩) .kLinear [[(5:ℝ), 6]] true
      = some (smatSum ⟨2, [[(0, (3:ℝ)), (1, 4)]]⟩,
          traceMatSmat [[(5:ℝ), 6]] ⟨2, [[(0, (3:ℝ)), (1, 4)]]⟩,
          some (smatToMat ⟨2, [[(0, (3:ℝ)), (1, 4)]]⟩)) ∧
     ComputeObjectiveFunction
        (GMat.full (smatToMat ⟨2, [[(0, (3:ℝ)), (1, 4)]]⟩)) .kLinear
        [[(5:ℝ), 6]] true
      = some (smatSum ⟨2, [[(0, (3:ℝ)), (1, 4)]]⟩,
          traceMatSmat [[(5:ℝ), 6]] ⟨2, [[(0, (3:ℝ)), (1, 4)]]⟩,
          some (smatToMat ⟨2, [[(0, (3:ℝ)), (1, 4)]]⟩)) ∧
     ComputeObjectiveFunction
        (GMat.compressed (smatToMat ⟨2, [[(0, (3:ℝ)), (1, 4)]]⟩)) .kLinear
        [[(5:ℝ), 6]] true
      = some (smatSum ⟨2, [[(0, (3:ℝ)), (1, 4)]]⟩,
          traceMatSmat [[(5:ℝ), 6]] ⟨2, [[(0, (3:ℝ)), (1, 4)]]⟩,
          some (smatToMat ⟨2, [[(0, (3:ℝ)), (1, 4)]]⟩))) := by
  have hb : ∀ r ∈ (⟨2, [[(0, (3:ℝ)), (1, 4)]]⟩ : SMat).rows,
      ∀ q ∈ r, q.1 < 2 := by
    intro r hr q hq
    simp only [List.mem_singleton] at hr
    subst hr
    simp only [List.mem_cons, List.mem_singleton, List.not_mem_nil,
      or_false] at hq
    rcases hq with rfl | rfl <;> norm_num
  have hcols : ∀ row ∈ [[(5:ℝ), 6]],
      row.length = (⟨2, [[(0, (3:ℝ)), (1, 4)]]⟩ : SMat).ncols := by
    intro row hrow
    simp only [List.mem_singleton] at hrow
    subst hrow
    rfl
  exact ⟨hb, claim_C6_linear_encodings ⟨2, [[(0, (3:ℝ)), (1, 4)]]⟩ _ _
    rfl hb rfl hcols rfl⟩

/-! ## The regularizer-family characterization (used for C2, C5, C9) -/

/-- Characterization of one ProcessOutputs call on the two-node family:
starting from a fresh trainer state with a single io entry `"out"`,
when the primary objective computation and the regularizer computation
(invoked with the PRIMARY node's objective kind `k1`) succeed, the final
state records, for both `"out"` and `"out-reg"`, statistics whose
reported objective is scaled by the PRIMARY output's scale-map entry,
while the supplied derivative for `"out-reg"` is scaled by the
`"out-reg"` entry; the minibatch counter advances twice.  The result
does not mention the regularizer node's own tag `k2`. -/
theorem processOutputs_regFamily (k1 k2 : ObjectiveType)
    (scales : List (String × ℝ)) (features : GMat) (dw : List ℝ)
    (outputs : String → Mat) (w1 ob1 w2 ob2 : ℝ) (dm rm : Mat)
    (h1 : ComputeObjectiveFunction features k1 (outputs "out") true
      = some (w1, ob1, some dm))
    (h2 : ComputeRegularizer k1 (outputs "out-reg") true
      = some (w2, ob2, some rm)) :
    ProcessOutputs (regFamilyNnet k1 k2) scales regFamilyCfg outputs
        initPOState [⟨"out", features, dw⟩]
      = some ⟨[("out",
          ⟨0, w1, ob1 * (lookupScale scales "out").getD 1, 0,
           w1, ob1 * (lookupScale scales "out").getD 1, 0⟩),
          ("out-reg",
          ⟨0, w2, ob2 * (lookupScale scales "out").getD 1, 0,
           w2, ob2 * (lookupScale scales "out").getD 1, 0⟩)],
          2,
          [("out", if (lookupScale scales "out").getD 1 ≠ 1 then
              matScale ((lookupScale scales "out").getD 1) dm else dm),
           ("out-reg", if (lookupScale scales "out-reg").getD 1 ≠ 1 then
              matScale ((lookupScale scales "out-reg").getD 1) rm else rm)]⟩ := by
  have h110 : (1 : ℕ) / 10 = 0 := by norm_num
  have hne1 : ("out" : String) = "out-reg" ↔ False := by
    simp only [iff_false]
    decide
  have happ : "out" ++ "-reg" = "out-reg" := rfl
  simp [ProcessOutputs, processEgEntry, regFamilyNnet, regFamilyCfg,
    initPOState, findNode, lookupInfo, insertInfo, UpdateStats, h1, h2, happ,
    hne1, h110, initOFI]

/-! ## Claim C9 -/

/-- Claim C9 (confirmed): when an output's `"-reg"` regularizer node is
processed, ComputeRegularizer is invoked with the objective kind `k1` of
the PRIMARY output node (nnet-training.cc line 118 is the only read of
an objective kind, used at line 173): the run's result is exactly the
one determined by `ComputeRegularizer k1` and is unchanged under any
change of the regularizer node's own tag `k2`. -/
theorem claim_C9_regularizer_primary_kind (k1 k2 k2' : ObjectiveType)
    (scales : List (String × ℝ)) (features : GMat) (dw : List ℝ)
    (outputs : String → Mat) (w1 ob1 w2 ob2 : ℝ) (dm rm : Mat)
    (h1 : ComputeObjectiveFunction features k1 (outputs "out") true
      = some (w1, ob1, some dm))
    (h2 : ComputeRegularizer k1 (outputs "out-reg") true
      = some (w2, ob2, some rm)) :
    ProcessOutputs (regFamilyNnet k1 k2) scales regFamilyCfg outputs
        initPOState [⟨"out", features, dw⟩]
      = some ⟨[("out",
          ⟨0, w1, ob1 * (lookupScale scales "out").getD 1, 0,
           w1, ob1 * (lookupScale scales "out").getD 1, 0⟩),
          ("out-reg",
          ⟨0, w2, ob2 * (lookupScale scales "out").getD 1, 0,
           w2, ob2 * (lookupScale scales "out").getD 1, 0⟩)],
          2,
          [("out", if (lookupScale scales "out").getD 1 ≠ 1 then
              matScale ((lookupScale scales "out").getD 1) dm else dm),
           ("out-reg", if (lookupScale scales "out-reg").getD 1 ≠ 1 then
              matScale ((lookupScale scales "out-reg").getD 1) rm else rm)]⟩ ∧
    ProcessOutputs (regFamilyNnet k1 k2) scales regFamilyCfg outputs
        initPOState [⟨"out", features, dw⟩]
      = ProcessOutputs (regFamilyNnet k1 k2') scales regFamilyCfg outputs
        initPOState [⟨"out", features, dw⟩] := by
  refine ⟨processOutputs_regFamily k1 k2 scales features dw outputs
    w1 ob1 w2 ob2 dm rm h1 h2, ?_⟩
  rw [processOutputs_regFamily k1 k2 scales features dw outputs
    w1 ob1 w2 ob2 dm rm h1 h2,
    processOutputs_regFamily k1 k2' scales features dw outputs
    w1 ob1 w2 ob2 dm rm h1 h2]

/-- Witness for claim C9: a concrete Linear primary output with the
regularizer node tagged Quadratic versus CrossEntropy — the run result
is identical. -/
theorem claim_C9_witness :
    ComputeObjectiveFunction (GMat.full [[(1:ℝ)]]) .kLinear [[(1:ℝ)]] true
      = some (1, 1, some [[(1:ℝ)]]) ∧
    ComputeRegularizer .kLinear [[(1:ℝ)]] true = some (1, 1, some [[(1:ℝ)]]) ∧
    ProcessOutputs (regFamilyNnet .kLinear .kQuadratic) [] regFamilyCfg
        (fun _ => [[(1:ℝ)]]) initPOState [⟨"out", GMat.full [[(1:ℝ)]], []⟩]
      = ProcessOutputs (regFamilyNnet .kLinear .kCrossEntropy) [] regFamilyCfg
        (fun _ => [[(1:ℝ)]]) initPOState [⟨"out", GMat.full [[(1:ℝ)]], []⟩] := by
  have h1 : ComputeObjectiveFunction (GMat.full [[(1:ℝ)]]) .kLinear
      [[(1:ℝ)]] true = some (1, 1, some [[(1:ℝ)]]) := by
    norm_num [ComputeObjectiveFunction, matNumCols, gmatNumCols, matSum,
      traceMatMatTrans]
  have h2 : ComputeRegularizer .kLinear [[(1:ℝ)]] true
      = some (1, 1, some [[(1:ℝ)]]) := by
    norm_num [ComputeRegularizer, matNumRows, matSum, matOnes]
  exact ⟨h1, h2, (claim_C9_regularizer_primary_kind .kLinear .kQuadratic
    .kCrossEntropy [] (GMat.full [[(1:ℝ)]]) [] (fun _ => [[(1:ℝ)]])
    1 1 1 1 [[(1:ℝ)]] [[(1:ℝ)]] h1 h2).2⟩

/-! ## Claim C2 -/

/-- Claim C2 counterexample: with scale map {out: 2, out-reg: 5}, a raw
regularizer objective of 1 is reported to the statistics tracker as 2
(scaled by the PRIMARY output's factor, line 177), while the regularizer
gradient is scaled by 5 (its own factor, line 186) — refuting the claim
that the reported regularizer objective is scaled by the "<output>-reg"
entry, the same factor used for its gradient. -/
theorem claim_C2_counterexample :
    ProcessOutputs (regFamilyNnet .kLinear .kLinear)
        [("out", (2:ℝ)), ("out-reg", 5)] regFamilyCfg
        (fun _ => [[(1:ℝ)]]) initPOState [⟨"out", GMat.full [[(1:ℝ)]], []⟩]
      = some ⟨[("out", ⟨0, 1, 2, 0, 1, 2, 0⟩),
               ("out-reg", ⟨0, 1, 2, 0, 1, 2, 0⟩)],
              2, [("out", [[2]]), ("out-reg", [[5]])]⟩ ∧
    ((2:ℝ) ≠ 5 * 1) := by
  have h1 : ComputeObjectiveFunction (GMat.full [[(1:ℝ)]]) .kLinear
      [[(1:ℝ)]] true = some (1, 1, some [[(1:ℝ)]]) := by
    norm_num [ComputeObjectiveFunction, matNumCols, gmatNumCols, matSum,
      traceMatMatTrans]
  have h2 : ComputeRegularizer .kLinear [[(1:ℝ)]] true
      = some (1, 1, some [[(1:ℝ)]]) := by
    norm_num [ComputeRegularizer, matNumRows, matSum, matOnes]
  have hmain := processOutputs_regFamily .kLinear .kLinear
    [("out", (2:ℝ)), ("out-reg", 5)] (GMat.full [[(1:ℝ)]]) []
    (fun _ => [[(1:ℝ)]]) 1 1 1 1 [[(1:ℝ)]] [[(1:ℝ)]] h1 h2
  have hne1 : ("out" : String) = "out-reg" ↔ False := by
    simp only [iff_false]
    decide
  constructor
  · rw [hmain]
    norm_num [lookupScale, matScale, hne1]
  · norm_num

/-- Claim C2 (amended): for an output processed with add_regularizer
enabled whose "<output>-reg" node exists, the regularizer's reported
total objective passed to the statistics tracker is scaled by the
PRIMARY output's scale-map entry `s` (nnet-training.cc line 177), NOT by
the "<output>-reg" entry `r`; the regularizer gradient is scaled by `r`
(line 186), so the two factors coincide only when the two map entries
are equal. -/
theorem claim_C2_regularizer_scaling (k1 k2 : ObjectiveType) (s r : ℝ)
    (scales : List (String × ℝ)) (features : GMat) (dw : List ℝ)
    (outputs : String → Mat) (w1 ob1 w2 ob2 : ℝ) (dm rm : Mat)
    (h1 : ComputeObjectiveFunction features k1 (outputs "out") true
      = some (w1, ob1, some dm))
    (h2 : ComputeRegularizer k1 (outputs "out-reg") true
      = some (w2, ob2, some rm))
    (hs : lookupScale scales "out" = some s)
    (hr : lookupScale scales "out-reg" = some r) :
    ProcessOutputs (regFamilyNnet k1 k2) scales regFamilyCfg outputs
        initPOState [⟨"out", features, dw⟩]
      = some ⟨[("out", ⟨0, w1, ob1 * s, 0, w1, ob1 * s, 0⟩),
          ("out-reg", ⟨0, w2, ob2 * s, 0, w2, ob2 * s, 0⟩)],
          2,
          [("out", if s ≠ 1 then matScale s dm else dm),
           ("out-reg", if r ≠ 1 then matScale r rm else rm)]⟩ := by
  rw [processOutputs_regFamily k1 k2 scales features dw outputs
    w1 ob1 w2 ob2 dm rm h1 h2, hs, hr]
  simp

/-- Witness for claim C2: the concrete scale map {out: 2, out-reg: 5}
instantiating the amended claim. -/
theorem claim_C2_witness :
    lookupScale [("out", (2:ℝ)), ("out-reg", 5)] "out" = some 2 ∧
    lookupScale [("out", (2:ℝ)), ("out-reg", 5)] "out-reg" = some 5 ∧
    ProcessOutputs (regFamilyNnet .kLinear .kLinear)
        [("out", (2:ℝ)), ("out-reg", 5)] regFamilyCfg
        (fun _ => [[(1:ℝ)]]) initPOState [⟨"out", GMat.full [[(1:ℝ)]], []⟩]
      = some ⟨[("out", ⟨0, 1, 1 * 2, 0, 1, 1 * 2, 0⟩),
          ("out-reg", ⟨0, 1, 1 * 2, 0, 1, 1 * 2, 0⟩)],
          2,
          [("out", if (2:ℝ) ≠ 1 then matScale 2 [[(1:ℝ)]] else [[(1:ℝ)]]),
           ("out-reg", if (5:ℝ) ≠ 1 then matScale 5 [[(1:ℝ)]] else [[(1:ℝ)]])]⟩ := by
  have h1 : ComputeObjectiveFunction (GMat.full [[(1:ℝ)]]) .kLinear
      [[(1:ℝ)]] true = some (1, 1, some [[(1:ℝ)]]) := by
    norm_num [ComputeObjectiveFunction, matNumCols, gmatNumCols, matSum,
      traceMatMatTrans]
  have h2 : ComputeRegularizer .kLinear [[(1:ℝ)]] true
      = some (1, 1, some [[(1:ℝ)]]) := by
    norm_num [ComputeRegularizer, matNumRows, matSum, matOnes]
  have hne1 : ("out" : String) = "out-reg" ↔ False := by
    simp only [iff_false]
    decide
  have hs : lookupScale [("out", (2:ℝ)), ("out-reg", 5)] "out" = some 2 := by
    norm_num [lookupScale]
  have hr : lookupScale [("out", (2:ℝ)), ("out-reg", 5)] "out-reg" = some 5 := by
    norm_num [lookupScale, hne1]
  exact ⟨hs, hr, claim_C2_regularizer_scaling .kLinear .kLinear 2 5
    [("out", (2:ℝ)), ("out-reg", 5)] (GMat.full [[(1:ℝ)]]) []
    (fun _ => [[(1:ℝ)]]) 1 1 1 1 [[(1:ℝ)]] [[(1:ℝ)]] h1 h2 hs hr⟩

/-! ## Claim C5 -/

/-- Processing one io entry advances `num_minibatches_processed_` by
exactly `egIncrement`: one for an output node plus one more when a
regularizer node is processed, zero for a non-output entry. -/
theorem processEgEntry_counter (nnet : List Node) (scales : List (String × ℝ))
    (cfg : TrainCfg) (outputs : String → Mat) (st : POState) (io : EgEntry)
    (st' : POState)
    (h : processEgEntry nnet scales cfg outputs st io = some st') :
    st'.num_minibatches = st.num_minibatches + egIncrement nnet cfg io := by
  unfold processEgEntry at h
  unfold egIncrement
  cases hf : findNode nnet io.name with
  | none => simp [hf] at h
  | some node =>
    simp only [hf] at h ⊢
    by_cases ho : node.is_output = true
    · simp only [ho, if_true] at h ⊢
      split at h
      · exact Option.noConfusion h
      · rename_i tw1 oba dopt heq
        split at h
        · exact Option.noConfusion h
        · rename_i pr heq2
          by_cases ha : cfg.add_regularizer = true
          · simp only [ha, if_true] at h ⊢
            cases hg : findNode nnet (io.name ++ "-reg") with
            | none =>
                simp only [hg] at h ⊢
                have h' := Option.some.inj h
                subst h'
                simp
            | some regnode =>
                simp only [hg] at h ⊢
                by_cases hro : regnode.is_output = true
                · simp only [hro, if_true] at h
                  split at h
                  · exact Option.noConfusion h
                  · rename_i w2a ob2a rdopt heq3
                    split at h
                    · exact Option.noConfusion h
                    · rename_i rpr heq4
                      have h' := Option.some.inj h
                      subst h'
                      simp
                · simp [hro] at h
          · simp only [ha, if_false] at h ⊢
            have h' := Option.some.inj h
            subst h'
            simp
    · simp only [ho, if_false] at h ⊢
      have h' := Option.some.inj h
      subst h'
      simp

theorem processOutputs_counter (nnet : List Node) (scales : List (String × ℝ))
    (cfg : TrainCfg) (outputs : String → Mat) :
    ∀ (ios : List EgEntry) (st st' : POState),
    ProcessOutputs nnet scales cfg outputs st ios = some st' →
    st'.num_minibatches
      = st.num_minibatches + (ios.map (egIncrement nnet cfg)).sum
  | [], st, st', h => by
      simp only [ProcessOutputs] at h
      have h' := Option.some.inj h
      subst h'
      simp
  | io :: rest, st, st', h => by
      rw [ProcessOutputs] at h
      cases hp : processEgEntry nnet scales cfg outputs st io with
      | none => rw [hp] at h; exact Option.noConfusion h
      | some st1 =>
          rw [hp] at h
          have h1 := processEgEntry_counter nnet scales cfg outputs st io st1 hp
          have h2 := processOutputs_counter nnet scales cfg outputs rest st1 st' h
          simp only [List.map_cons, List.sum_cons, h2, h1]
          omega

/-- Claim C5 counterexample: a Train call whose example has one output
node with a regularizer node present advances the minibatch counter by
2, not 1 (the counter is incremented once per processed output,
nnet-training.cc lines 150 and 192, not once per Train call). -/
theorem claim_C5_counterexample :
    (ProcessOutputs (regFamilyNnet .kLinear .kLinear) [] regFamilyCfg
        (fun _ => [[(1:ℝ)]]) initPOState
        [⟨"out", GMat.full [[(1:ℝ)]], []⟩]).map POState.num_minibatches
      = some 2 ∧ (2 : ℕ) ≠ 1 := by
  have h1 : ComputeObjectiveFunction (GMat.full [[(1:ℝ)]]) .kLinear
      [[(1:ℝ)]] true = some (1, 1, some [[(1:ℝ)]]) := by
    norm_num [ComputeObjectiveFunction, matNumCols, gmatNumCols, matSum,
      traceMatMatTrans]
  have h2 : ComputeRegularizer .kLinear [[(1:ℝ)]] true
      = some (1, 1, some [[(1:ℝ)]]) := by
    norm_num [ComputeRegularizer, matNumRows, matSum, matOnes]
  rw [processOutputs_regFamily .kLinear .kLinear [] (GMat.full [[(1:ℝ)]]) []
    (fun _ => [[(1:ℝ)]]) 1 1 1 1 [[(1:ℝ)]] [[(1:ℝ)]] h1 h2]
  exact ⟨rfl, by decide⟩

/-- Claim C5 (amended): one call to Train advances the training loop's
minibatch counter by the number of outputs it processes: one per
output-node io entry plus one per processed regularizer output (zero for
input entries) — so the counter advances by exactly one only when the
example has a single output node and no regularizer is processed. -/
theorem claim_C5_counter_advance (nnet : List Node)
    (scales : List (String × ℝ)) (cfg : TrainCfg) (outputs : String → Mat)
    (ios : List EgEntry) (st st' : POState)
    (h : ProcessOutputs nnet scales cfg outputs st ios = some st') :
    st'.num_minibatches
      = st.num_minibatches + (ios.map (egIncrement nnet cfg)).sum :=
  processOutputs_counter nnet scales cfg outputs ios st st' h

/-- Witness for claim C5: the concrete one-output-plus-regularizer run,
whose increment sum is 2. -/
theorem claim_C5_witness :
    ProcessOutputs (regFamilyNnet .kLinear .kLinear) [] regFamilyCfg
        (fun _ => [[(1:ℝ)]]) initPOState [⟨"out", GMat.full [[(1:ℝ)]], []⟩]
      = some ⟨[("out", ⟨0, 1, 1, 0, 1, 1, 0⟩),
               ("out-reg", ⟨0, 1, 1, 0, 1, 1, 0⟩)],
              2, [("out", [[(1:ℝ)]]), ("out-reg", [[(1:ℝ)]])]⟩ ∧
    (⟨[("out", ⟨0, 1, 1, 0, 1, 1, 0⟩),
       ("out-reg", ⟨0, 1, 1, 0, 1, 1, 0⟩)],
      2, [("out", [[(1:ℝ)]]), ("out-reg", [[(1:ℝ)]])]⟩ : POState).num_minibatches
      = initPOState.num_minibatches
        + ([(⟨"out", GMat.full [[(1:ℝ)]], []⟩ : EgEntry)].map
            (egIncrement (regFamilyNnet .kLinear .kLinear) regFamilyCfg)).sum := by
  have h1 : ComputeObjectiveFunction (GMat.full [[(1:ℝ)]]) .kLinear
      [[(1:ℝ)]] true = some (1, 1, some [[(1:ℝ)]]) := by
    norm_num [ComputeObjectiveFunction, matNumCols, gmatNumCols, matSum,
      traceMatMatTrans]
  have h2 : ComputeRegularizer .kLinear [[(1:ℝ)]] true
      = some (1, 1, some [[(1:ℝ)]]) := by
    norm_num [ComputeRegularizer, matNumRows, matSum, matOnes]
  have hrun : ProcessOutputs (regFamilyNnet .kLinear .kLinear) [] regFamilyCfg
      (fun _ => [[(1:ℝ)]]) initPOState [⟨"out", GMat.full [[(1:ℝ)]], []⟩]
      = some ⟨[("out", ⟨0, 1, 1, 0, 1, 1, 0⟩),
               ("out-reg", ⟨0, 1, 1, 0, 1, 1, 0⟩)],
              2, [("out", [[(1:ℝ)]]), ("out-reg", [[(1:ℝ)]])]⟩ := by
    rw [processOutputs_regFamily .kLinear .kLinear [] (GMat.full [[(1:ℝ)]]) []
      (fun _ => [[(1:ℝ)]]) 1 1 1 1 [[(1:ℝ)]] [[(1:ℝ)]] h1 h2]
    norm_num [lookupScale]
  refine ⟨hrun, ?_⟩
  have := claim_C5_counter_advance (regFamilyNnet .kLinear .kLinear) []
    regFamilyCfg (fun _ => [[(1:ℝ)]]) [⟨"out", GMat.full [[(1:ℝ)]], []⟩]
    initPOState _ hrun
  exact this
